import Mathlib

/-!
Shallow embedding of the financial-service core: the balance/transaction
ledger (balanceService), the payout calculator (payoutService), the
leaderboard/prize engine (prizeService), the campaign-closure saga
(campaignClosure) and the campaign.funded event handler.

Monetary amounts (JS numbers) are modelled as exact rationals; the Balance
table is an association list keyed by userId with unique-key update
semantics; the append-only Transaction table is a list.  Operations that
throw inside a storage transaction are modelled as Except values: an error
leaves the state unchanged (the storage transaction rolls back).
-/

/-- Transaction.type enum from the prisma schema. -/
inductive TransactionType
  | DEPOSIT
  | RESERVATION
  | PAYOUT
  | REFUND
  | FUNDING
deriving DecidableEq

/-- One row of the Balance table. -/
structure Balance where
  available : ℚ
  pending : ℚ
deriving DecidableEq

/-- One row of the append-only Transaction table. -/
structure Transaction where
  userId : String
  campaignId : Option String
  amount : ℚ
  type : TransactionType
  description : String
deriving DecidableEq

/-- Ledger state: the Balance table and the Transaction log. -/
structure LedgerState where
  balances : List (String × Balance)
  transactions : List Transaction
deriving DecidableEq

/-- Errors thrown by balanceService: notFound and badRequest from lib/errors. -/
inductive LedgerError
  | notFound (msg : String)
  | badRequest (msg : String)
deriving DecidableEq

/-- prisma.balance.findUnique on the userId key. -/
def findBalance (bs : List (String × Balance)) (u : String) : Option Balance :=
  (bs.find? (fun p => decide (p.1 = u))).map Prod.snd

/-- prisma.balance.update on the unique userId key: rewrites the first
(unique) row with that key. -/
def updateBalance : List (String × Balance) → String → (Balance → Balance) → List (String × Balance)
  | [], _, _ => []
  | p :: rest, u, f => if p.1 = u then (p.1, f p.2) :: rest else p :: updateBalance rest u f

/-- prisma.balance.upsert on the userId key. -/
def upsertBalance (bs : List (String × Balance)) (u : String) (created : Balance)
    (f : Balance → Balance) : List (String × Balance) :=
  match findBalance bs u with
  | some _ => updateBalance bs u f
  | none => bs ++ [(u, created)]

/-- balanceService.getBalance: read the balance, creating a zeroed row if absent. -/
def getBalance (s : LedgerState) (u : String) : Balance × LedgerState :=
  match findBalance s.balances u with
  | some b => (b, s)
  | none => (⟨0, 0⟩, { s with balances := s.balances ++ [(u, ⟨0, 0⟩)] })

/-- balanceService.addFunds. -/
def addFunds (s : LedgerState) (userId : String) (amount : ℚ) (campaignId : Option String)
    (description : Option String) : Except LedgerError LedgerState :=
  if amount ≤ 0 then .error (.badRequest "Amount must be positive")
  else
    .ok { balances := upsertBalance s.balances userId ⟨amount, 0⟩
            (fun b => ⟨b.available + amount, b.pending⟩),
          transactions := s.transactions ++
            [⟨userId, campaignId, amount, .DEPOSIT, description.getD "Funds added"⟩] }

/-- balanceService.reserveFunds: ensure a balance row exists (zeroed if absent),
increment pending, append a RESERVATION transaction. -/
def reserveFunds (s : LedgerState) (userId : String) (amount : ℚ) (campaignId : String)
    (description : String) : Except LedgerError LedgerState :=
  if amount ≤ 0 then .error (.badRequest "Amount must be positive")
  else
    .ok { balances :=
            updateBalance
              (match findBalance s.balances userId with
               | some _ => s.balances
               | none => s.balances ++ [(userId, ⟨0, 0⟩)])
              userId (fun b => ⟨b.available, b.pending + amount⟩),
          transactions := s.transactions ++
            [⟨userId, some campaignId, amount, .RESERVATION, description⟩] }

/-- balanceService.releasePending: move amount from pending to available,
append a PAYOUT transaction. -/
def releasePending (s : LedgerState) (userId : String) (amount : ℚ) (campaignId : String)
    (description : String) : Except LedgerError LedgerState :=
  if amount ≤ 0 then .error (.badRequest "Amount must be positive")
  else
    match findBalance s.balances userId with
    | none => .error (.notFound ("Balance not found for user " ++ userId))
    | some current =>
      if current.pending < amount then .error (.badRequest "Insufficient pending balance")
      else
        .ok { balances := updateBalance s.balances userId
                (fun b => ⟨b.available + amount, b.pending - amount⟩),
              transactions := s.transactions ++
                [⟨userId, some campaignId, amount, .PAYOUT, description⟩] }

/-- balanceService.refundToCreator: increment available (upserting), append a
REFUND transaction. -/
def refundToCreator (s : LedgerState) (userId : String) (amount : ℚ) (campaignId : String)
    (description : String) : Except LedgerError LedgerState :=
  if amount ≤ 0 then .error (.badRequest "Amount must be positive")
  else
    .ok { balances := upsertBalance s.balances userId ⟨amount, 0⟩
            (fun b => ⟨b.available + amount, b.pending⟩),
          transactions := s.transactions ++
            [⟨userId, some campaignId, amount, .REFUND, description⟩] }

/-- Run a fallible ledger operation; on error the state is unchanged
(the storage transaction rolled back, or the caller caught the error). -/
def orKeep (s : LedgerState) : Except LedgerError LedgerState → LedgerState
  | .ok s1 => s1
  | .error _ => s

/-- releasePending with the error caught and logged (saga per-editor loop). -/
def tryRelease (s : LedgerState) (u : String) (a : ℚ) (c d : String) : LedgerState :=
  orKeep s (releasePending s u a c d)

/-- reserveFunds with the error caught and logged (prize-distribution loop). -/
def tryReserve (s : LedgerState) (u : String) (a : ℚ) (c d : String) : LedgerState :=
  orKeep s (reserveFunds s u a c d)

/-- The five balanceService entry points, as one operation type. -/
inductive LedgerOp
  | addFunds (u : String) (a : ℚ) (c : Option String) (d : Option String)
  | reserveFunds (u : String) (a : ℚ) (c d : String)
  | releasePending (u : String) (a : ℚ) (c d : String)
  | refundToCreator (u : String) (a : ℚ) (c d : String)
  | getBalance (u : String)

/-- State after running one balanceService operation, whether it succeeds
or fails (failure leaves the state unchanged). -/
def applyOp (s : LedgerState) : LedgerOp → LedgerState
  | .addFunds u a c d => orKeep s (addFunds s u a c d)
  | .reserveFunds u a c d => orKeep s (reserveFunds s u a c d)
  | .releasePending u a c d => orKeep s (releasePending s u a c d)
  | .refundToCreator u a c d => orKeep s (refundToCreator s u a c d)
  | .getBalance u => (getBalance s u).2

/-- Every Balance row has nonnegative available and pending. -/
def BalancesNonneg (bs : List (String × Balance)) : Prop :=
  ∀ p ∈ bs, 0 ≤ p.2.available ∧ 0 ≤ p.2.pending

/-- The ledger invariant claimed by the spec for every operation. -/
def InvariantNonneg (s : LedgerState) : Prop :=
  BalancesNonneg s.balances

/-- The campaign.funded event handler in setupEventHandlers: records one
FUNDING transaction for the funding user; no balance is touched. -/
def handleCampaignFunded (s : LedgerState) (campaignId : String) (amount : ℚ)
    (fundedBy : String) : LedgerState :=
  { s with transactions := s.transactions ++
      [⟨fundedBy, some campaignId, amount, .FUNDING, "Campaign funded: " ++ campaignId⟩] }

/-- Sum of the amounts of a list of transactions. -/
def sumAmounts (l : List Transaction) : ℚ :=
  (l.map Transaction.amount).sum

/-- The where-clause of the saga: transactions with this campaignId and type
RESERVATION. -/
def isReservationFor (c : String) (t : Transaction) : Bool :=
  decide (t.campaignId = some c ∧ t.type = TransactionType.RESERVATION)

/-- The where-clause of the saga: transactions with this campaignId and type
PAYOUT. -/
def isPayoutFor (c : String) (t : Transaction) : Bool :=
  decide (t.campaignId = some c ∧ t.type = TransactionType.PAYOUT)

/-- prisma.transaction.findMany for campaign reservations. -/
def reservationsOf (s : LedgerState) (c : String) : List Transaction :=
  s.transactions.filter (isReservationFor c)

/-- prisma.transaction.findMany for campaign payouts. -/
def payoutsOf (s : LedgerState) (c : String) : List Transaction :=
  s.transactions.filter (isPayoutFor c)

/-- Total RESERVATION amount recorded for one editor and campaign
(the pendingByEditor map entry). -/
def reservationSum (s : LedgerState) (c u : String) : ℚ :=
  sumAmounts ((reservationsOf s c).filter (fun t => decide (t.userId = u)))

/-- Total PAYOUT amount recorded for one editor and campaign
(the releasedByEditor map entry). -/
def payoutSum (s : LedgerState) (c u : String) : ℚ :=
  sumAmounts ((payoutsOf s c).filter (fun t => decide (t.userId = u)))

/-- The saga's per-editor remaining amount: reservations minus payouts. -/
def remainderFor (s : LedgerState) (c u : String) : ℚ :=
  reservationSum s c u - payoutSum s c u

/-- First-occurrence deduplication, mirroring JS Map key insertion order. -/
def dedupAux : List String → List String → List String
  | [], _ => []
  | a :: l, seen => if a ∈ seen then dedupAux l seen else a :: dedupAux l (a :: seen)

/-- First-occurrence deduplication of a list of user ids. -/
def dedupKeepFirst (l : List String) : List String :=
  dedupAux l []

/-- The keys of the saga's pendingByEditor map, in insertion order. -/
def closureEditors (s : LedgerState) (c : String) : List String :=
  dedupKeepFirst ((reservationsOf s c).map Transaction.userId)

/-- The PAYOUT transaction appended by a successful releasePending. -/
def mkPayout (u c : String) (a : ℚ) (d : String) : Transaction :=
  ⟨u, some c, a, .PAYOUT, d⟩

/-- The releasePending calls made by the saga's step 2: one per editor whose
remaining amount is positive, for exactly that remainder. -/
def step2Calls (s : LedgerState) (c : String) : List (String × ℚ) :=
  (closureEditors s c).filterMap (fun e =>
    if 0 < remainderFor s c e then some (e, remainderFor s c e) else none)

/-- Execute a list of releasePending calls in order, each with its error
caught and logged. -/
def runCalls (s : LedgerState) (c d : String) : List (String × ℚ) → LedgerState
  | [] => s
  | p :: rest => runCalls (tryRelease s p.1 p.2 c d) c d rest

/-- Step 2 of handleCampaignEnded: aggregate per-editor reservations minus
payouts from the transaction log (snapshotted before the loop), then release
each positive remainder. -/
def closureStep2 (s : LedgerState) (c title : String) : LedgerState :=
  runCalls s c ("Campaign closure payout: " ++ title) (step2Calls s c)

/-- One row of the LeaderboardEntry table. -/
structure LBEntry where
  id : Nat
  campaignId : String
  editorId : String
  submissionId : String
  views : ℚ
  likes : ℚ
  engagement : ℚ
  score : ℚ
  rank : Nat
deriving DecidableEq

/-- One row of the PrizeDistribution config table. -/
structure PrizeSlot where
  campaignId : String
  position : Nat
  reward : ℚ
  label : String
deriving DecidableEq

/-- Insert into a score-descending list; an element goes before the first
strictly smaller score, after equal scores already present, which combined
with the foldr below gives the stable descending sort used on entries. -/
def insertScoreDesc (a : LBEntry) : List LBEntry → List LBEntry
  | [] => [a]
  | b :: l => if b.score ≤ a.score then a :: b :: l else b :: insertScoreDesc a l

/-- Stable sort by score descending (orderBy score desc; ties keep stored order). -/
def sortByScoreDesc (l : List LBEntry) : List LBEntry :=
  l.foldr insertScoreDesc []

/-- Stable insertion for position-ascending order. -/
def insertPosAsc (a : PrizeSlot) : List PrizeSlot → List PrizeSlot
  | [] => [a]
  | b :: l => if a.position ≤ b.position then a :: b :: l else b :: insertPosAsc a l

/-- Stable sort of the prize config by position ascending. -/
def sortByPosAsc (l : List PrizeSlot) : List PrizeSlot :=
  l.foldr insertPosAsc []

/-- Stable insertion for rank-ascending order. -/
def insertRankAsc (a : LBEntry) : List LBEntry → List LBEntry
  | [] => [a]
  | b :: l => if a.rank ≤ b.rank then a :: b :: l else b :: insertRankAsc a l

/-- Stable sort of leaderboard entries by rank ascending. -/
def sortByRankAsc (l : List LBEntry) : List LBEntry :=
  l.foldr insertRankAsc []

/-- Full service state: the ledger plus the LeaderboardEntry and
PrizeDistribution tables. -/
structure World where
  ledger : LedgerState
  leaderboard : List LBEntry
  prizes : List PrizeSlot
deriving DecidableEq

/-- The (entry id, new rank) updates issued by finalizeLeaderboard: the
i-th entry of the score-sorted list gets rank i+1. -/
def rankAssignments : Nat → List LBEntry → List (Nat × Nat)
  | _, [] => []
  | i, e :: rest => (e.id, i + 1) :: rankAssignments (i + 1) rest

/-- prizeService.finalizeLeaderboard: re-read the campaign entries ordered by
score descending and reassign rank 1..N in that order, updating each row by id. -/
def finalizeLeaderboard (w : World) (c : String) : World :=
  let sorted := sortByScoreDesc (w.leaderboard.filter (fun e => decide (e.campaignId = c)))
  let assigns := rankAssignments 0 sorted
  { w with leaderboard := w.leaderboard.map (fun e =>
      match assigns.find? (fun p => decide (p.1 = e.id)) with
      | some p => { e with rank := p.2 }
      | none => e) }

/-- prizeService.distributePrizes: for each configured position (ascending),
reserve the reward for the entry whose rank equals the position; missing
positions are skipped, per-position errors are caught. Loop body first: -/
def distributeOne (lb : List LBEntry) (c : String) (st : LedgerState)
    (prize : PrizeSlot) : LedgerState :=
  match lb.find? (fun e => decide (e.rank = prize.position)) with
  | none => st
  | some entry => tryReserve st entry.editorId prize.reward c
      ("Prize: " ++ prize.label ++ " (Position #" ++ toString prize.position ++ ")")

def distributePrizes (w : World) (c : String) : World :=
  let cfg := sortByPosAsc (w.prizes.filter (fun p => decide (p.campaignId = c)))
  let lb := sortByRankAsc (w.leaderboard.filter (fun e => decide (e.campaignId = c)))
  { w with ledger := cfg.foldl (distributeOne lb c) w.ledger }

/-- The campaign snapshot passed to the closure saga. -/
structure CampaignClosureData where
  campaignId : String
  createdBy : String
  title : String
  totalBudget : ℚ
  spentBudget : ℚ
  isFunded : Bool
  enableLeaderboard : Bool
  hasLeaderboard : Bool

/-- campaignClosure.handleCampaignEnded: finalize/distribute when the
leaderboard is enabled, release each editor's positive remainder, then refund
the unused budget to the creator when positive and funded; a refund error
propagates to the caller. -/
def handleCampaignEnded (w : World) (c : String) (cd : CampaignClosureData) :
    Except LedgerError World :=
  let w1 := if cd.enableLeaderboard || cd.hasLeaderboard
    then distributePrizes (finalizeLeaderboard w c) c else w
  let s2 := closureStep2 w1.ledger c cd.title
  if 0 < cd.totalBudget - cd.spentBudget ∧ cd.isFunded = true then
    match refundToCreator s2 cd.createdBy (cd.totalBudget - cd.spentBudget) c
        ("Refund unused budget: " ++ cd.title) with
    | .ok s3 => .ok { w1 with ledger := s3 }
    | .error e => .error e
  else .ok { w1 with ledger := s2 }

/-- Rounding of a JS Math.round call: floor of the value plus one half. -/
def jsRound (q : ℚ) : ℤ :=
  ⌊q + 1/2⌋

/-- The switch statement of calculateClipPayment: FIXED pays basePay,
PAY_PER_VIEW pays views times rewardPerView, HYBRID pays both, anything
else pays 0. -/
def rawClipAmount (paymentType : String) (views basePay rewardPerView : ℚ) : ℚ :=
  if paymentType = "FIXED" then basePay
  else if paymentType = "PAY_PER_VIEW" then views * rewardPerView
  else if paymentType = "HYBRID" then basePay + views * rewardPerView
  else 0

/-- payoutService.calculateClipPayment: switch on payment type, clamp to a
set positive limitPerClip when exceeded, round to the nearest integer. -/
def calculateClipPayment (views : ℚ) (paymentType : String) (basePay rewardPerView : ℚ)
    (limitPerClip : Option ℚ) : ℤ :=
  let amount := rawClipAmount paymentType views basePay rewardPerView
  let clamped := match limitPerClip with
    | some l => if 0 < l ∧ l < amount then l else amount
    | none => amount
  jsRound clamped

theorem findBalance_cons (p : String × Balance) (rest : List (String × Balance)) (u : String) :
    findBalance (p :: rest) u = if p.1 = u then some p.2 else findBalance rest u := by
  by_cases h : p.1 = u
  · rw [if_pos h]
    unfold findBalance
    rw [List.find?_cons_of_pos _ (by simp [h])]
    rfl
  · rw [if_neg h]
    unfold findBalance
    rw [List.find?_cons_of_neg _ (by simp [h])]

theorem findBalance_updateBalance_self {bs : List (String × Balance)} {u : String} {b : Balance}
    (f : Balance → Balance) (h : findBalance bs u = some b) :
    findBalance (updateBalance bs u f) u = some (f b) := by
  induction bs with
  | nil => simp [findBalance] at h
  | cons p rest ih =>
    rw [findBalance_cons] at h
    by_cases hp : p.1 = u
    · rw [if_pos hp] at h
      have hb : p.2 = b := by injection h
      simp only [updateBalance, if_pos hp, findBalance_cons]
      rw [hb]
    · rw [if_neg hp] at h
      simp only [updateBalance, if_neg hp]
      rw [findBalance_cons, if_neg hp]
      exact ih h

theorem findBalance_updateBalance_ne {bs : List (String × Balance)} {u : String}
    (f : Balance → Balance) {v : String} (hne : v ≠ u) :
    findBalance (updateBalance bs u f) v = findBalance bs v := by
  induction bs with
  | nil => rfl
  | cons p rest ih =>
    simp only [updateBalance]
    by_cases hp : p.1 = u
    · rw [if_pos hp, findBalance_cons, findBalance_cons]
      have hpv : p.1 ≠ v := by rw [hp]; exact fun hh => hne hh.symm
      rw [if_neg hpv, if_neg hpv]
    · rw [if_neg hp, findBalance_cons, findBalance_cons]
      by_cases hv : p.1 = v
      · rw [if_pos hv, if_pos hv]
      · rw [if_neg hv, if_neg hv]
        exact ih

theorem updateBalance_of_none {bs : List (String × Balance)} {u : String}
    (f : Balance → Balance) (h : findBalance bs u = none) :
    updateBalance bs u f = bs := by
  induction bs with
  | nil => rfl
  | cons p rest ih =>
    rw [findBalance_cons] at h
    by_cases hp : p.1 = u
    · rw [if_pos hp] at h
      exact absurd h (by simp)
    · rw [if_neg hp] at h
      simp only [updateBalance, if_neg hp]
      rw [ih h]

theorem findBalance_append_none {bs : List (String × Balance)} {u : String}
    (b : Balance) (h : findBalance bs u = none) :
    findBalance (bs ++ [(u, b)]) u = some b := by
  induction bs with
  | nil => simp [findBalance_cons]
  | cons p rest ih =>
    rw [findBalance_cons] at h
    by_cases hp : p.1 = u
    · rw [if_pos hp] at h
      exact absurd h (by simp)
    · rw [if_neg hp] at h
      rw [List.cons_append, findBalance_cons, if_neg hp]
      exact ih h

theorem findBalance_mem {bs : List (String × Balance)} {u : String} {b : Balance}
    (h : findBalance bs u = some b) : (u, b) ∈ bs := by
  induction bs with
  | nil => simp [findBalance] at h
  | cons p rest ih =>
    rw [findBalance_cons] at h
    by_cases hp : p.1 = u
    · rw [if_pos hp] at h
      have hb : p.2 = b := by injection h
      have hpu : p = (u, b) := Prod.ext hp hb
      rw [← hpu]
      exact List.mem_cons_self p rest
    · rw [if_neg hp] at h
      exact List.mem_cons_of_mem _ (ih h)

theorem releasePending_ok_eq {s : LedgerState} {u : String} {a : ℚ} (c d : String) {b : Balance}
    (hb : findBalance s.balances u = some b) (ha : 0 < a) (hp : a ≤ b.pending) :
    releasePending s u a c d =
      .ok ⟨updateBalance s.balances u (fun x => ⟨x.available + a, x.pending - a⟩),
           s.transactions ++ [mkPayout u c a d]⟩ := by
  unfold releasePending
  rw [if_neg (not_le.mpr ha)]
  simp only [hb]
  rw [if_neg (not_lt.mpr hp)]
  simp only [mkPayout]

/-- C3: for a user whose balance exists with pending at least a, and a > 0, a
successful releasePending decreases pending by exactly a, increases available
by exactly a, keeps available + pending unchanged, and appends exactly one
PAYOUT transaction of amount a. -/
theorem releasePending_moves_pending_to_available
    (s : LedgerState) (u : String) (a : ℚ) (c d : String) (b : Balance)
    (hb : findBalance s.balances u = some b) (ha : 0 < a) (hp : a ≤ b.pending) :
    ∃ s1, releasePending s u a c d = .ok s1
      ∧ findBalance s1.balances u = some ⟨b.available + a, b.pending - a⟩
      ∧ (b.available + a) + (b.pending - a) = b.available + b.pending
      ∧ s1.transactions = s.transactions ++ [mkPayout u c a d] := by
  refine ⟨_, releasePending_ok_eq c d hb ha hp, ?_, by ring, rfl⟩
  exact findBalance_updateBalance_self _ hb

/-- Witness for C3 at a concrete ledger: available 2 / pending 7, release 3. -/
theorem releasePending_moves_pending_to_available_witness :
    ∃ s1, releasePending ⟨[("u1", ⟨2, 7⟩)], []⟩ "u1" 3 "c1" "d1" = .ok s1
      ∧ findBalance s1.balances "u1" = some ⟨5, 4⟩ := by
  obtain ⟨s1, h1, h2, h3, h4⟩ :=
    releasePending_moves_pending_to_available ⟨[("u1", ⟨2, 7⟩)], []⟩ "u1" 3 "c1" "d1" ⟨2, 7⟩
      (by simp [findBalance_cons]) (by norm_num) (by norm_num)
  refine ⟨s1, h1, ?_⟩
  rw [h2]
  norm_num

/-- C4: with a positive amount, releasePending fails with notFound when no
balance row exists and with the insufficient-pending badRequest when pending
is below the amount; in both cases the ledger state is unchanged. -/
theorem releasePending_failure_cases (s : LedgerState) (u : String) (a : ℚ) (c d : String)
    (ha : 0 < a) :
    (findBalance s.balances u = none →
      releasePending s u a c d = .error (.notFound ("Balance not found for user " ++ u))
        ∧ tryRelease s u a c d = s)
    ∧ ∀ b, findBalance s.balances u = some b → b.pending < a →
      releasePending s u a c d = .error (.badRequest "Insufficient pending balance")
        ∧ tryRelease s u a c d = s := by
  constructor
  · intro h
    have h1 : releasePending s u a c d =
        .error (.notFound ("Balance not found for user " ++ u)) := by
      unfold releasePending
      rw [if_neg (not_le.mpr ha)]
      simp only [h]
    exact ⟨h1, by simp [tryRelease, orKeep, h1]⟩
  · intro b hb hlt
    have h1 : releasePending s u a c d = .error (.badRequest "Insufficient pending balance") := by
      unfold releasePending
      rw [if_neg (not_le.mpr ha)]
      simp only [hb]
      rw [if_pos hlt]
    exact ⟨h1, by simp [tryRelease, orKeep, h1]⟩

/-- Witness for C4: a missing balance row and an insufficient pending balance. -/
theorem releasePending_failure_cases_witness :
    releasePending ⟨[], []⟩ "u1" 1 "c1" "d1" =
        .error (.notFound ("Balance not found for user " ++ "u1"))
      ∧ releasePending ⟨[("u2", ⟨0, 3⟩)], []⟩ "u2" 5 "c1" "d1" =
        .error (.badRequest "Insufficient pending balance") := by
  constructor
  · exact ((releasePending_failure_cases ⟨[], []⟩ "u1" 1 "c1" "d1" (by norm_num)).1 rfl).1
  · exact ((releasePending_failure_cases ⟨[("u2", ⟨0, 3⟩)], []⟩ "u2" 5 "c1" "d1"
      (by norm_num)).2 ⟨0, 3⟩ (by simp [findBalance_cons]) (by norm_num)).1

/-- C5: with a positive amount, reserveFunds increases pending by exactly a,
leaves available unchanged (0 when the balance row is created on the fly), and
appends exactly one RESERVATION transaction of amount a. -/
theorem reserveFunds_increases_pending (s : LedgerState) (u : String) (a : ℚ) (c d : String)
    (ha : 0 < a) :
    ∃ s1, reserveFunds s u a c d = .ok s1
      ∧ findBalance s1.balances u =
          some ⟨((findBalance s.balances u).getD ⟨0, 0⟩).available,
                ((findBalance s.balances u).getD ⟨0, 0⟩).pending + a⟩
      ∧ s1.transactions = s.transactions ++ [⟨u, some c, a, .RESERVATION, d⟩] := by
  cases hfb : findBalance s.balances u with
  | some b =>
    have heq : reserveFunds s u a c d =
        .ok ⟨updateBalance s.balances u (fun x => ⟨x.available, x.pending + a⟩),
             s.transactions ++ [⟨u, some c, a, .RESERVATION, d⟩]⟩ := by
      unfold reserveFunds
      rw [if_neg (not_le.mpr ha)]
      simp only [hfb]
    refine ⟨_, heq, ?_, rfl⟩
    simpa using findBalance_updateBalance_self (fun x => (⟨x.available, x.pending + a⟩ : Balance)) hfb
  | none =>
    have hcreated : findBalance (s.balances ++ [(u, ⟨0, 0⟩)]) u = some ⟨0, 0⟩ :=
      findBalance_append_none _ hfb
    have heq : reserveFunds s u a c d =
        .ok ⟨updateBalance (s.balances ++ [(u, ⟨0, 0⟩)]) u (fun x => ⟨x.available, x.pending + a⟩),
             s.transactions ++ [⟨u, some c, a, .RESERVATION, d⟩]⟩ := by
      unfold reserveFunds
      rw [if_neg (not_le.mpr ha)]
      simp only [hfb]
    refine ⟨_, heq, ?_, rfl⟩
    simpa using findBalance_updateBalance_self (fun x => (⟨x.available, x.pending + a⟩ : Balance)) hcreated

/-- Witness for C5 on a fresh user with no balance row. -/
theorem reserveFunds_increases_pending_witness :
    ∃ s1, reserveFunds ⟨[], []⟩ "u1" 4 "c1" "d1" = .ok s1
      ∧ findBalance s1.balances "u1" = some ⟨0, 4⟩ := by
  obtain ⟨s1, h1, h2, h3⟩ := reserveFunds_increases_pending ⟨[], []⟩ "u1" 4 "c1" "d1" (by norm_num)
  refine ⟨s1, h1, ?_⟩
  rw [h2]
  norm_num [findBalance]

/-- C9: a non-positive amount makes releasePending fail with the
invalid-amount badRequest before any storage access, even when no balance row
exists, and the state is unchanged. -/
theorem releasePending_rejects_nonpositive (s : LedgerState) (u : String) (a : ℚ) (c d : String)
    (ha : a ≤ 0) :
    releasePending s u a c d = .error (.badRequest "Amount must be positive")
      ∧ tryRelease s u a c d = s := by
  have h1 : releasePending s u a c d = .error (.badRequest "Amount must be positive") := by
    unfold releasePending
    rw [if_pos ha]
  exact ⟨h1, by simp [tryRelease, orKeep, h1]⟩

/-- Witness for C9 on a user with no balance row: the invalid-amount error
takes precedence over notFound. -/
theorem releasePending_rejects_nonpositive_witness :
    findBalance ([] : List (String × Balance)) "u1" = none
      ∧ releasePending ⟨[], []⟩ "u1" (-5) "c1" "d1" = .error (.badRequest "Amount must be positive")
      ∧ tryRelease ⟨[], []⟩ "u1" (-5) "c1" "d1" = ⟨[], []⟩ := by
  refine ⟨rfl, ?_, ?_⟩
  · exact (releasePending_rejects_nonpositive ⟨[], []⟩ "u1" (-5) "c1" "d1" (by norm_num)).1
  · exact (releasePending_rejects_nonpositive ⟨[], []⟩ "u1" (-5) "c1" "d1" (by norm_num)).2

/-- C10: handling a campaign.funded event appends exactly one FUNDING
transaction for the funding user and mutates no balance row. -/
theorem handleCampaignFunded_frame (s : LedgerState) (c : String) (a : ℚ) (u : String) :
    (handleCampaignFunded s c a u).transactions =
        s.transactions ++ [⟨u, some c, a, .FUNDING, "Campaign funded: " ++ c⟩]
      ∧ (handleCampaignFunded s c a u).balances = s.balances
      ∧ ∀ v, findBalance (handleCampaignFunded s c a u).balances v = findBalance s.balances v :=
  ⟨rfl, rfl, fun _ => rfl⟩

theorem balancesNonneg_append {bs : List (String × Balance)} (h : BalancesNonneg bs)
    {u : String} {b : Balance} (hb : 0 ≤ b.available ∧ 0 ≤ b.pending) :
    BalancesNonneg (bs ++ [(u, b)]) := by
  intro p hp
  rcases List.mem_append.mp hp with h1 | h1
  · exact h p h1
  · rw [List.mem_singleton.mp h1]
    exact hb

theorem balancesNonneg_update (bs : List (String × Balance)) :
    ∀ (u : String) (b : Balance) (f : Balance → Balance), BalancesNonneg bs →
      findBalance bs u = some b → 0 ≤ (f b).available → 0 ≤ (f b).pending →
      BalancesNonneg (updateBalance bs u f) := by
  induction bs with
  | nil =>
    intro u b f _ hfind _ _
    simp [findBalance] at hfind
  | cons q rest ih =>
    intro u b f h hfind hfa hfp
    rw [findBalance_cons] at hfind
    by_cases hq : q.1 = u
    · rw [if_pos hq] at hfind
      have hb : q.2 = b := by injection hfind
      simp only [updateBalance, if_pos hq]
      intro p hp
      rcases List.mem_cons.mp hp with hpe | h1
      · rw [hpe]
        exact ⟨by simpa [hb] using hfa, by simpa [hb] using hfp⟩
      · exact h p (List.mem_cons_of_mem _ h1)
    · rw [if_neg hq] at hfind
      simp only [updateBalance, if_neg hq]
      intro p hp
      rcases List.mem_cons.mp hp with hpe | h1
      · rw [hpe]
        exact h q (List.mem_cons_self _ _)
      · exact ih u b f (fun r hr => h r (List.mem_cons_of_mem _ hr)) hfind hfa hfp p h1

theorem balancesNonneg_upsert (bs : List (String × Balance)) (u : String) (created : Balance)
    (f : Balance → Balance) (h : BalancesNonneg bs)
    (hc : 0 ≤ created.available ∧ 0 ≤ created.pending)
    (hf : ∀ b, findBalance bs u = some b → 0 ≤ (f b).available ∧ 0 ≤ (f b).pending) :
    BalancesNonneg (upsertBalance bs u created f) := by
  unfold upsertBalance
  cases hfb : findBalance bs u with
  | some b => exact balancesNonneg_update bs u b f h hfb (hf b hfb).1 (hf b hfb).2
  | none => exact balancesNonneg_append h hc

/-- C8: every balanceService operation, whether it succeeds or fails,
preserves the invariant that each balance row has nonnegative available and
pending. -/
theorem applyOp_preserves_nonneg (s : LedgerState) (op : LedgerOp) (h : InvariantNonneg s) :
    InvariantNonneg (applyOp s op) := by
  cases op with
  | addFunds u a c d =>
    simp only [applyOp]
    by_cases ha : a ≤ 0
    · simp only [addFunds, if_pos ha, orKeep]
      exact h
    · rw [not_le] at ha
      simp only [addFunds, if_neg (not_le.mpr ha), orKeep]
      refine balancesNonneg_upsert _ _ _ _ h ⟨le_of_lt ha, le_refl 0⟩ ?_
      intro b hb
      have hmem := h _ (findBalance_mem hb)
      exact ⟨add_nonneg hmem.1 (le_of_lt ha), hmem.2⟩
  | reserveFunds u a c d =>
    simp only [applyOp]
    by_cases ha : a ≤ 0
    · simp only [reserveFunds, if_pos ha, orKeep]
      exact h
    · rw [not_le] at ha
      cases hfb : findBalance s.balances u with
      | some b =>
        simp only [reserveFunds, if_neg (not_le.mpr ha), hfb, orKeep]
        have hmem := h _ (findBalance_mem hfb)
        exact balancesNonneg_update s.balances u b _ h hfb hmem.1
          (add_nonneg hmem.2 (le_of_lt ha))
      | none =>
        simp only [reserveFunds, if_neg (not_le.mpr ha), hfb, orKeep]
        have h1 : BalancesNonneg (s.balances ++ [(u, ⟨0, 0⟩)]) :=
          balancesNonneg_append h ⟨le_refl 0, le_refl 0⟩
        exact balancesNonneg_update _ u ⟨0, 0⟩ _ h1 (findBalance_append_none _ hfb)
          (le_refl 0) (by simpa using le_of_lt ha)
  | releasePending u a c d =>
    simp only [applyOp]
    by_cases ha : a ≤ 0
    · rw [(releasePending_rejects_nonpositive s u a c d ha).1]
      simp only [orKeep]
      exact h
    · rw [not_le] at ha
      cases hfb : findBalance s.balances u with
      | none =>
        rw [((releasePending_failure_cases s u a c d ha).1 hfb).1]
        simp only [orKeep]
        exact h
      | some b =>
        by_cases hlt : b.pending < a
        · rw [((releasePending_failure_cases s u a c d ha).2 b hfb hlt).1]
          simp only [orKeep]
          exact h
        · rw [not_lt] at hlt
          rw [releasePending_ok_eq c d hfb ha hlt]
          simp only [orKeep]
          have hmem := h _ (findBalance_mem hfb)
          exact balancesNonneg_update s.balances u b _ h hfb
            (add_nonneg hmem.1 (le_of_lt ha)) (sub_nonneg.mpr hlt)
  | refundToCreator u a c d =>
    simp only [applyOp]
    by_cases ha : a ≤ 0
    · simp only [refundToCreator, if_pos ha, orKeep]
      exact h
    · rw [not_le] at ha
      simp only [refundToCreator, if_neg (not_le.mpr ha), orKeep]
      refine balancesNonneg_upsert _ _ _ _ h ⟨le_of_lt ha, le_refl 0⟩ ?_
      intro b hb
      have hmem := h _ (findBalance_mem hb)
      exact ⟨add_nonneg hmem.1 (le_of_lt ha), hmem.2⟩
  | getBalance u =>
    cases hfb : findBalance s.balances u with
    | some b =>
      simp only [applyOp, getBalance, hfb]
      exact h
    | none =>
      simp only [applyOp, getBalance, hfb]
      exact balancesNonneg_append h ⟨le_refl 0, le_refl 0⟩

/-- Witness for C8: a concrete nonnegative state and a reserveFunds call. -/
theorem applyOp_preserves_nonneg_witness :
    InvariantNonneg ⟨[("u1", ⟨1, 0⟩)], []⟩
      ∧ InvariantNonneg (applyOp ⟨[("u1", ⟨1, 0⟩)], []⟩ (.reserveFunds "u1" 2 "c1" "d1")) := by
  have h0 : InvariantNonneg ⟨[("u1", ⟨1, 0⟩)], []⟩ := by
    intro p hp
    rw [List.mem_singleton.mp hp]
    exact ⟨by norm_num, by norm_num⟩
  exact ⟨h0, applyOp_preserves_nonneg _ _ h0⟩

theorem jsRound_intCast (n : ℤ) : jsRound (n : ℚ) = n := by
  unfold jsRound
  rw [Int.floor_eq_iff]
  constructor
  · norm_num
  · norm_num

theorem jsRound_zero : jsRound 0 = 0 := by
  simpa using jsRound_intCast 0

theorem jsRound_dist (q : ℚ) : |(jsRound q : ℚ) - q| ≤ 1/2 := by
  rw [abs_le]
  constructor
  · have h := Int.sub_one_lt_floor (q + 1/2)
    unfold jsRound
    linarith
  · have h := Int.floor_le (q + 1/2)
    unfold jsRound
    linarith

theorem rawClipAmount_fixed (v b r : ℚ) : rawClipAmount "FIXED" v b r = b := by
  unfold rawClipAmount
  rw [if_pos rfl]

theorem rawClipAmount_ppv (v b r : ℚ) : rawClipAmount "PAY_PER_VIEW" v b r = v * r := by
  unfold rawClipAmount
  rw [if_neg (by decide), if_pos rfl]

theorem rawClipAmount_hybrid (v b r : ℚ) : rawClipAmount "HYBRID" v b r = b + v * r := by
  unfold rawClipAmount
  rw [if_neg (by decide), if_neg (by decide), if_pos rfl]

theorem calculateClipPayment_of_raw_zero (v : ℚ) (t : String) (b r : ℚ) (l : Option ℚ)
    (h : rawClipAmount t v b r = 0) : calculateClipPayment v t b r l = 0 := by
  simp only [calculateClipPayment, h]
  cases l with
  | none => exact jsRound_zero
  | some x =>
    show jsRound (if 0 < x ∧ x < 0 then x else 0) = 0
    rw [if_neg]
    · exact jsRound_zero
    · rintro ⟨h1, h2⟩
      exact absurd (lt_trans h1 h2) (lt_irrefl 0)

/-- C6: calculateClipPayment pays basePay for FIXED regardless of views,
views times rewardPerView for PAY_PER_VIEW (0 at zero views), their sum for
HYBRID (120 for basePay 100, rewardPerView 2, views 10), 0 for an unknown
payment type; a set positive limitPerClip clamps any larger computed amount;
and the result is the computed amount rounded to the nearest integer. -/
theorem calculateClipPayment_spec (v w b r : ℚ) (l : Option ℚ) :
    calculateClipPayment v "FIXED" b r l = calculateClipPayment w "FIXED" b r l
    ∧ calculateClipPayment v "FIXED" b r none = jsRound b
    ∧ calculateClipPayment 0 "PAY_PER_VIEW" b r l = 0
    ∧ calculateClipPayment v "PAY_PER_VIEW" b r none = jsRound (v * r)
    ∧ calculateClipPayment v "HYBRID" b r none = jsRound (b + v * r)
    ∧ calculateClipPayment 10 "HYBRID" 100 2 none = 120
    ∧ (∀ t, t ≠ "FIXED" → t ≠ "PAY_PER_VIEW" → t ≠ "HYBRID" →
        calculateClipPayment v t b r l = 0)
    ∧ (∀ t lim, 0 < lim → lim < rawClipAmount t v b r →
        calculateClipPayment v t b r (some lim) = jsRound lim)
    ∧ ∀ t, |(calculateClipPayment v t b r none : ℚ) - rawClipAmount t v b r| ≤ 1/2 := by
  refine ⟨?_, ?_, ?_, ?_, ?_, ?_, ?_, ?_, ?_⟩
  · simp only [calculateClipPayment, rawClipAmount_fixed]
  · simp only [calculateClipPayment, rawClipAmount_fixed]
  · exact calculateClipPayment_of_raw_zero 0 _ b r l (by rw [rawClipAmount_ppv]; exact zero_mul r)
  · simp only [calculateClipPayment, rawClipAmount_ppv]
  · simp only [calculateClipPayment, rawClipAmount_hybrid]
  · simp only [calculateClipPayment, rawClipAmount_hybrid]
    norm_num
    have h := jsRound_intCast 120
    norm_num at h
    exact h
  · intro t h1 h2 h3
    refine calculateClipPayment_of_raw_zero v t b r l ?_
    unfold rawClipAmount
    rw [if_neg h1, if_neg h2, if_neg h3]
  · intro t lim hpos hlt
    simp only [calculateClipPayment]
    rw [if_pos ⟨hpos, hlt⟩]
  · intro t
    have h : calculateClipPayment v t b r none = jsRound (rawClipAmount t v b r) := rfl
    rw [h]
    exact jsRound_dist _

/-- Witness for C6: clamping at limit 5 on a PAY_PER_VIEW amount of 20, and
the concrete HYBRID example. -/
theorem calculateClipPayment_spec_witness :
    calculateClipPayment 10 "PAY_PER_VIEW" 0 2 (some 5) = jsRound 5
      ∧ calculateClipPayment 10 "HYBRID" 100 2 none = 120 := by
  constructor
  · refine (calculateClipPayment_spec 10 10 0 2 (some 5)).2.2.2.2.2.2.2.1 "PAY_PER_VIEW" 5
      (by norm_num) ?_
    rw [rawClipAmount_ppv]
    norm_num
  · exact (calculateClipPayment_spec 10 10 100 2 none).2.2.2.2.2.1

/-- Concrete leaderboard entries whose scores, in stored (fetch) order, are
10, 30, 30, 5. -/
def cexEntries : List LBEntry :=
  [⟨1, "c1", "eA", "s1", 10, 0, 0, 10, 0⟩,
   ⟨2, "c1", "eB", "s2", 30, 0, 0, 30, 0⟩,
   ⟨3, "c1", "eC", "s3", 30, 0, 0, 30, 0⟩,
   ⟨4, "c1", "eD", "s4", 5, 0, 0, 5, 0⟩]

/-- C7 counterexample: on scores 10, 30, 30, 5 finalizeLeaderboard does not
produce the claimed shared-tie ranks 3, 1, 1, 4 — tied scores get distinct
consecutive ranks. -/
theorem finalizeLeaderboard_ranks_counterexample :
    ((finalizeLeaderboard ⟨⟨[], []⟩, cexEntries, []⟩ "c1").leaderboard.map LBEntry.rank) ≠
      [3, 1, 1, 4] := by
  have h : ((finalizeLeaderboard ⟨⟨[], []⟩, cexEntries, []⟩ "c1").leaderboard.map LBEntry.rank) =
      [3, 1, 2, 4] := by
    norm_num [finalizeLeaderboard, cexEntries, sortByScoreDesc, insertScoreDesc, rankAssignments,
      List.foldr, List.filter, List.find?, List.map]
  rw [h]
  decide

/-- C7 amended: on scores 10, 30, 30, 5 in fetch order the ranks after
finalizeLeaderboard are 3, 1, 2, 4 — rank equals 1 plus the position in the
score-descending order, ties are broken by stable original order and receive
distinct consecutive ranks rather than sharing a dense rank. -/
theorem finalizeLeaderboard_ranks_of_sorted_position :
    ((finalizeLeaderboard ⟨⟨[], []⟩, cexEntries, []⟩ "c1").leaderboard.map LBEntry.rank) =
      [3, 1, 2, 4] := by
  norm_num [finalizeLeaderboard, cexEntries, sortByScoreDesc, insertScoreDesc, rankAssignments,
    List.foldr, List.filter, List.find?, List.map]

theorem mem_of_mem_dedupAux :
    ∀ (l seen : List String) (x : String), x ∈ dedupAux l seen → x ∈ l ∧ x ∉ seen := by
  intro l
  induction l with
  | nil =>
    intro seen x hx
    simp [dedupAux] at hx
  | cons a t ih =>
    intro seen x hx
    simp only [dedupAux] at hx
    by_cases ha : a ∈ seen
    · rw [if_pos ha] at hx
      obtain ⟨h1, h2⟩ := ih seen x hx
      exact ⟨List.mem_cons_of_mem _ h1, h2⟩
    · rw [if_neg ha] at hx
      rcases List.mem_cons.mp hx with rfl | hx2
      · exact ⟨List.mem_cons_self _ _, ha⟩
      · obtain ⟨h1, h2⟩ := ih _ x hx2
        exact ⟨List.mem_cons_of_mem _ h1, fun hc => h2 (List.mem_cons_of_mem _ hc)⟩

theorem dedupAux_nodup : ∀ (l seen : List String), (dedupAux l seen).Nodup := by
  intro l
  induction l with
  | nil =>
    intro seen
    simp [dedupAux]
  | cons a t ih =>
    intro seen
    simp only [dedupAux]
    by_cases ha : a ∈ seen
    · rw [if_pos ha]
      exact ih seen
    · rw [if_neg ha]
      refine List.nodup_cons.mpr ⟨?_, ih (a :: seen)⟩
      intro hmem
      exact (mem_of_mem_dedupAux t (a :: seen) a hmem).2 (List.mem_cons_self _ _)

theorem dedupKeepFirst_nodup (l : List String) : (dedupKeepFirst l).Nodup :=
  dedupAux_nodup l []

theorem mem_step2Calls {s : LedgerState} {c : String} {p : String × ℚ} :
    p ∈ step2Calls s c ↔
      p.1 ∈ closureEditors s c ∧ 0 < remainderFor s c p.1 ∧ p.2 = remainderFor s c p.1 := by
  unfold step2Calls
  rw [List.mem_filterMap]
  constructor
  · rintro ⟨e, he, hfe⟩
    by_cases hr : 0 < remainderFor s c e
    · rw [if_pos hr] at hfe
      have hp : (e, remainderFor s c e) = p := by injection hfe
      rw [← hp]
      exact ⟨he, hr, rfl⟩
    · rw [if_neg hr] at hfe
      exact absurd hfe (by simp)
  · rintro ⟨he, hr, hp⟩
    refine ⟨p.1, he, ?_⟩
    rw [if_pos hr, ← hp]

theorem step2Calls_pos {s : LedgerState} {c : String} {p : String × ℚ}
    (h : p ∈ step2Calls s c) : 0 < p.2 := by
  obtain ⟨_, hr, hp⟩ := mem_step2Calls.mp h
  rw [hp]
  exact hr

theorem nodup_map_fst_filterMap (g : String → ℚ) (P : String → Prop) [DecidablePred P] :
    ∀ l : List String, l.Nodup →
      ((l.filterMap (fun e => if P e then some (e, g e) else none)).map Prod.fst).Nodup := by
  intro l
  induction l with
  | nil =>
    intro _
    simp
  | cons a t ih =>
    intro hn
    rw [List.nodup_cons] at hn
    simp only [List.filterMap_cons]
    by_cases hp : P a
    · rw [if_pos hp]
      rw [List.map_cons]
      refine List.nodup_cons.mpr ⟨?_, ih hn.2⟩
      intro hmem
      rw [List.mem_map] at hmem
      obtain ⟨q, hq, hq1⟩ := hmem
      rw [List.mem_filterMap] at hq
      obtain ⟨e, he, hfe⟩ := hq
      by_cases hpe : P e
      · rw [if_pos hpe] at hfe
        have hq2 : (e, g e) = q := by injection hfe
        have : e = a := by
          rw [← hq2] at hq1
          simpa using hq1
        exact hn.1 (this ▸ he)
      · rw [if_neg hpe] at hfe
        exact absurd hfe (by simp)
    · rw [if_neg hp]
      exact ih hn.2

theorem step2Calls_fst_nodup (s : LedgerState) (c : String) :
    ((step2Calls s c).map Prod.fst).Nodup :=
  nodup_map_fst_filterMap (remainderFor s c) (fun e => 0 < remainderFor s c e)
    (closureEditors s c) (dedupKeepFirst_nodup _)

theorem tryRelease_ok_eq {s : LedgerState} {u : String} {a : ℚ} (c d : String) {b : Balance}
    (hb : findBalance s.balances u = some b) (ha : 0 < a) (hp : a ≤ b.pending) :
    tryRelease s u a c d =
      ⟨updateBalance s.balances u (fun x => ⟨x.available + a, x.pending - a⟩),
       s.transactions ++ [mkPayout u c a d]⟩ := by
  unfold tryRelease
  rw [releasePending_ok_eq c d hb ha hp]
  rfl

theorem runCalls_spec (c d : String) :
    ∀ (calls : List (String × ℚ)) (s : LedgerState),
      (calls.map Prod.fst).Nodup →
      (∀ p ∈ calls, 0 < p.2 ∧ ∃ b, findBalance s.balances p.1 = some b ∧ p.2 ≤ b.pending) →
      (runCalls s c d calls).transactions =
        s.transactions ++ calls.map (fun p => mkPayout p.1 c p.2 d) := by
  intro calls
  induction calls with
  | nil =>
    intro s _ _
    simp [runCalls]
  | cons q rest ih =>
    intro s hnodup hok
    obtain ⟨hqpos, b, hqb, hqle⟩ := hok q (List.mem_cons_self _ _)
    rw [List.map_cons, List.nodup_cons] at hnodup
    have hs1 : tryRelease s q.1 q.2 c d =
        ⟨updateBalance s.balances q.1 (fun x => ⟨x.available + q.2, x.pending - q.2⟩),
         s.transactions ++ [mkPayout q.1 c q.2 d]⟩ := tryRelease_ok_eq c d hqb hqpos hqle
    have hcond : ∀ p ∈ rest, 0 < p.2 ∧ ∃ bb,
        findBalance (updateBalance s.balances q.1
          (fun x => ⟨x.available + q.2, x.pending - q.2⟩)) p.1 = some bb ∧ p.2 ≤ bb.pending := by
      intro p hp
      obtain ⟨hppos, bp, hpb, hple⟩ := hok p (List.mem_cons_of_mem _ hp)
      have hne : p.1 ≠ q.1 := by
        intro hc
        exact hnodup.1 (hc ▸ List.mem_map_of_mem Prod.fst hp)
      refine ⟨hppos, bp, ?_, hple⟩
      rw [findBalance_updateBalance_ne _ hne]
      exact hpb
    simp only [runCalls]
    rw [hs1, ih _ hnodup.2 hcond]
    simp

theorem sumAmounts_append (l1 l2 : List Transaction) :
    sumAmounts (l1 ++ l2) = sumAmounts l1 + sumAmounts l2 := by
  unfold sumAmounts
  rw [List.map_append, List.sum_append]

theorem filter_reservation_append (txs L : List Transaction) (c : String)
    (hL : ∀ t ∈ L, t.type = TransactionType.PAYOUT) :
    (txs ++ L).filter (isReservationFor c) = txs.filter (isReservationFor c) := by
  rw [List.filter_append]
  have hnil : L.filter (isReservationFor c) = [] := by
    rw [List.filter_eq_nil_iff]
    intro t ht
    simp [isReservationFor, hL t ht]
  rw [hnil, List.append_nil]

theorem filter_payout_append (txs L : List Transaction) (c : String)
    (hL : ∀ t ∈ L, isPayoutFor c t = true) :
    (txs ++ L).filter (isPayoutFor c) = txs.filter (isPayoutFor c) ++ L := by
  rw [List.filter_append, List.filter_eq_self.mpr hL]

theorem payout_filter_user (c d : String) (calls : List (String × ℚ)) (e : String) :
    (calls.map (fun p => mkPayout p.1 c p.2 d)).filter (fun t => decide (t.userId = e)) =
      (calls.filter (fun q => decide (q.1 = e))).map (fun p => mkPayout p.1 c p.2 d) := by
  rw [List.filter_map]
  congr 1

theorem sumAmounts_map_mkPayout (c d : String) (calls : List (String × ℚ)) :
    sumAmounts (calls.map (fun p => mkPayout p.1 c p.2 d)) = (calls.map Prod.snd).sum := by
  unfold sumAmounts
  rw [List.map_map]
  rfl

theorem filter_fst_eq_of_not_mem (calls : List (String × ℚ)) (e : String)
    (he : e ∉ calls.map Prod.fst) : calls.filter (fun q => decide (q.1 = e)) = [] := by
  rw [List.filter_eq_nil_iff]
  intro x hx
  simp only [decide_eq_true_eq]
  intro hc
  exact he (hc ▸ List.mem_map_of_mem Prod.fst hx)

theorem filter_fst_eq_of_nodup :
    ∀ (calls : List (String × ℚ)) (e : String) (a : ℚ), (calls.map Prod.fst).Nodup →
      (e, a) ∈ calls → calls.filter (fun q => decide (q.1 = e)) = [(e, a)] := by
  intro calls
  induction calls with
  | nil =>
    intro e a _ hmem
    simp at hmem
  | cons q rest ih =>
    intro e a hnodup hmem
    rw [List.map_cons, List.nodup_cons] at hnodup
    rcases List.mem_cons.mp hmem with heq | hmem2
    · have hq : q = (e, a) := heq.symm
      subst hq
      have hrest : rest.filter (fun q => decide (q.1 = e)) = [] := by
        refine filter_fst_eq_of_not_mem rest e ?_
        simpa using hnodup.1
      rw [List.filter_cons]
      simp [hrest]
    · have hq1 : ¬ (q.1 = e) := by
        intro hc
        exact hnodup.1 (by rw [hc]; exact List.mem_map_of_mem Prod.fst hmem2)
      rw [List.filter_cons]
      have hqf : (decide (q.1 = e)) = false := by simp [hq1]
      simp only [hqf, Bool.false_eq_true, if_false]
      exact ih e a hnodup.2 hmem2

theorem closure_aggregates_after (s s1 : LedgerState) (c : String) (L : List Transaction)
    (htx : s1.transactions = s.transactions ++ L)
    (hL : ∀ t ∈ L, isPayoutFor c t = true) :
    closureEditors s1 c = closureEditors s c
    ∧ ∀ e, remainderFor s1 c e =
        remainderFor s c e - sumAmounts (L.filter (fun t => decide (t.userId = e))) := by
  have hty : ∀ t ∈ L, t.type = TransactionType.PAYOUT := by
    intro t ht
    exact (of_decide_eq_true (hL t ht)).2
  constructor
  · unfold closureEditors reservationsOf
    rw [htx, filter_reservation_append _ _ _ hty]
  · intro e
    unfold remainderFor reservationSum payoutSum reservationsOf payoutsOf
    rw [htx, filter_reservation_append _ _ _ hty, filter_payout_append _ _ _ hL,
        List.filter_append, sumAmounts_append]
    ring

/-- C1: if the saga's pending-release step runs once with every releasePending
call succeeding, an immediate second run over the updated ledger computes no
positive remainder for any editor, so it makes no releasePending call and
releases nothing further. -/
theorem closure_step2_idempotent (s : LedgerState) (c title : String)
    (h : ∀ p ∈ step2Calls s c, ∃ b, findBalance s.balances p.1 = some b ∧ p.2 ≤ b.pending) :
    step2Calls (closureStep2 s c title) c = []
      ∧ closureStep2 (closureStep2 s c title) c title = closureStep2 s c title := by
  have hcond : ∀ p ∈ step2Calls s c,
      0 < p.2 ∧ ∃ b, findBalance s.balances p.1 = some b ∧ p.2 ≤ b.pending :=
    fun p hp => ⟨step2Calls_pos hp, h p hp⟩
  have hnd := step2Calls_fst_nodup s c
  have htx : (closureStep2 s c title).transactions =
      s.transactions ++ (step2Calls s c).map
        (fun p => mkPayout p.1 c p.2 ("Campaign closure payout: " ++ title)) :=
    runCalls_spec c ("Campaign closure payout: " ++ title) (step2Calls s c) s hnd hcond
  have hL : ∀ t ∈ (step2Calls s c).map
      (fun p => mkPayout p.1 c p.2 ("Campaign closure payout: " ++ title)),
      isPayoutFor c t = true := by
    intro t ht
    rw [List.mem_map] at ht
    obtain ⟨p, _, hpt⟩ := ht
    rw [← hpt]
    simp [isPayoutFor, mkPayout]
  obtain ⟨hed, hrem⟩ := closure_aggregates_after s _ c _ htx hL
  have hcalls_empty : step2Calls (closureStep2 s c title) c = [] := by
    unfold step2Calls
    rw [hed, List.filterMap_eq_nil_iff]
    intro e he
    have hnotpos : ¬ 0 < remainderFor (closureStep2 s c title) c e := by
      rw [hrem e]
      by_cases hp : 0 < remainderFor s c e
      · have hmem : (e, remainderFor s c e) ∈ step2Calls s c :=
          mem_step2Calls.mpr ⟨he, hp, rfl⟩
        have hfil := filter_fst_eq_of_nodup (step2Calls s c) e (remainderFor s c e) hnd hmem
        have hΔ : sumAmounts (((step2Calls s c).map
            (fun p => mkPayout p.1 c p.2 ("Campaign closure payout: " ++ title))).filter
              (fun t => decide (t.userId = e))) = remainderFor s c e := by
          rw [payout_filter_user, hfil, sumAmounts_map_mkPayout]
          simp
        rw [hΔ]
        simp
      · have hne : e ∉ (step2Calls s c).map Prod.fst := by
          intro hc
          rw [List.mem_map] at hc
          obtain ⟨p, hpmem, hpe⟩ := hc
          obtain ⟨_, hpos2, _⟩ := mem_step2Calls.mp hpmem
          rw [hpe] at hpos2
          exact hp hpos2
        have hΔ : sumAmounts (((step2Calls s c).map
            (fun p => mkPayout p.1 c p.2 ("Campaign closure payout: " ++ title))).filter
              (fun t => decide (t.userId = e))) = 0 := by
          rw [payout_filter_user, filter_fst_eq_of_not_mem _ _ hne]
          rfl
        rw [hΔ]
        simpa using hp
    rw [if_neg hnotpos]
  refine ⟨hcalls_empty, ?_⟩
  calc closureStep2 (closureStep2 s c title) c title
      = runCalls (closureStep2 s c title) c ("Campaign closure payout: " ++ title)
          (step2Calls (closureStep2 s c title) c) := rfl
    _ = runCalls (closureStep2 s c title) c ("Campaign closure payout: " ++ title) [] := by
          rw [hcalls_empty]
    _ = closureStep2 s c title := rfl

/-- Witness for C1: one editor with a 50 reservation and pending 50; after a
successful first run the second run makes no calls. -/
theorem closure_step2_idempotent_witness :
    step2Calls (closureStep2 ⟨[("ed", ⟨0, 50⟩)], [⟨"ed", some "c1", 50, .RESERVATION, "r"⟩]⟩
      "c1" "T") "c1" = [] := by
  refine (closure_step2_idempotent _ "c1" "T" ?_).1
  have hc : step2Calls ⟨[("ed", ⟨0, 50⟩)], [⟨"ed", some "c1", 50, .RESERVATION, "r"⟩]⟩ "c1" =
      [("ed", (50 : ℚ))] := by
    simp +decide [step2Calls, closureEditors, reservationsOf, remainderFor, reservationSum,
      payoutSum, payoutsOf, sumAmounts, dedupKeepFirst, dedupAux, isReservationFor, isPayoutFor,
      List.filterMap_cons]
  rw [hc]
  intro p hp
  rw [List.mem_singleton] at hp
  subst hp
  refine ⟨⟨0, 50⟩, ?_, by norm_num⟩
  rw [findBalance_cons]
  simp

/-- C2: end-to-end closure of a funded campaign with totalBudget 1000,
spentBudget 400, leaderboard disabled, and one editor with 600 reserved and
nothing released: the saga makes exactly one releasePending call of 600,
moving the editor's 600 from pending to available, and refunds exactly 600 to
the creator's available balance with a REFUND transaction. -/
theorem handleCampaignEnded_end_to_end :
    handleCampaignEnded
        ⟨⟨[("ed1", ⟨0, 600⟩)], [⟨"ed1", some "camp", 600, .RESERVATION, "r"⟩]⟩, [], []⟩
        "camp" ⟨"camp", "cr1", "T", 1000, 400, true, false, false⟩ =
      .ok ⟨⟨[("ed1", ⟨600, 0⟩), ("cr1", ⟨600, 0⟩)],
        [⟨"ed1", some "camp", 600, .RESERVATION, "r"⟩,
         mkPayout "ed1" "camp" 600 ("Campaign closure payout: " ++ "T"),
         ⟨"cr1", some "camp", 600, .REFUND, "Refund unused budget: " ++ "T"⟩]⟩, [], []⟩
    ∧ step2Calls ⟨[("ed1", ⟨0, 600⟩)], [⟨"ed1", some "camp", 600, .RESERVATION, "r"⟩]⟩ "camp" =
      [("ed1", 600)] := by
  constructor
  · simp +decide [handleCampaignEnded, closureStep2, step2Calls, closureEditors, reservationsOf,
      remainderFor, reservationSum, payoutSum, payoutsOf, sumAmounts, dedupKeepFirst, dedupAux,
      isReservationFor, isPayoutFor, runCalls, tryRelease, releasePending, orKeep, refundToCreator,
      upsertBalance, findBalance, updateBalance, mkPayout, List.filterMap_cons]
    norm_num
  · simp +decide [step2Calls, closureEditors, reservationsOf, remainderFor, reservationSum,
      payoutSum, payoutsOf, sumAmounts, dedupKeepFirst, dedupAux, isReservationFor, isPayoutFor,
      List.filterMap_cons]
